import Mathlib

set_option linter.unusedVariables false

/-!
Shallow embedding of `lib/api-helper/project/CachingProjectLoader.ts` from
`@atomist/sdm`: a caching `ProjectLoader` that reuses materialized checkouts
for read-only requests addressed by an exact commit hash, and otherwise
bypasses the cache, registering the fresh checkout for later reclamation
(scoped disposal, idle timeout, or process shutdown).

The asynchronous TypeScript code is embedded as explicit state passing: the
mutable fields of the loader (`cache`, `deleteOnExit`), the filesystem, the
scheduled timers and registered disposables, and observation logs (delegate
invocations, action invocations, removal attempts) form a `LoaderState`, and
each method is a function from state to state. External effects are oracles:
the delegate loader is a function producing a checkout or a materialization
failure, and `removeOk` says whether a recursive directory removal succeeds.
-/

namespace SdmCache

/-- Repository identity plus revision designator, mirroring the fields of
`params.id` (a `RemoteRepoRef`) that `CachingProjectLoader` reads. -/
structure RepoRef where
  owner : String
  repo : String
  sha : String
deriving DecidableEq, Repr

/-- Clone configuration options; `cachedProjectIsValid` compares them with
lodash `_.isEqual` (deep value equality), embedded as a finite map given as a
list of key/value pairs compared by structural equality. -/
abbrev CloneOptions := List (String × String)

/-- Load request, mirroring `ProjectLoadingParameters`: repository reference,
`readOnly` intent flag, clone options, and whether `params.context` carries a
truthy `lifecycle` handle (the test `params.context && params.context.lifecycle`). -/
structure ProjectLoadingParameters where
  id : RepoRef
  readOnly : Bool
  cloneOptions : CloneOptions
  hasLifecycle : Bool
deriving DecidableEq, Repr

/-- Materialized checkout as produced by the delegate loader, with the
`GitProject` fields the caching loader reads: the checkout directory
`baseDir` and the repository identity `id`. -/
structure GitProject where
  baseDir : String
  id : RepoRef
deriving DecidableEq, Repr

/-- Character class of the `sha-regex` dependency: lowercase hexadecimal. -/
def isShaChar (c : Char) : Bool :=
  (decide ('0' ≤ c) && decide (c ≤ '9')) || (decide ('a' ≤ c) && decide (c ≤ 'f'))

/-- Embedding of the `sha-regex` dependency called as `sha(\x7b exact: true \x7d)`:
the anchored regex accepts exactly the strings of forty lowercase hexadecimal
characters (a syntactically valid exact SHA-1 commit hash). -/
def isExactSha (s : String) : Bool :=
  decide (s.length = 40) && s.data.all isShaChar

/-- Content key type: repository identity together with the exact commit hash. -/
structure CacheKey where
  owner : String
  repo : String
  sha : String
deriving DecidableEq, Repr

/-- Modelled from the spec: `cacheKeyForSha` is imported from
`./support/cacheKey`, whose source file is not among the provided sources.
Per the spec the Content Key is a deterministic function of the repository
identity and the exact commit hash, equal for equal inputs and distinct
whenever the identity or the hash differs, so it is modelled as the triple
of those components. -/
def cacheKeyForSha (id : RepoRef) : CacheKey :=
  ⟨id.owner, id.repo, id.sha⟩

/-- Object stored in the cache by `this.cache.put(key, \x7b ...project, ...params \x7d)`:
a plain object holding the shallow spread merge of the checkout's own
enumerable fields with every field of the inserting request's parameters.
`id` occurs in both, and the parameters are spread last, so the merged `id`
is the parameters' value; the merge is a fresh plain object, not the
`GitProject` instance, and carries no members of the instance's prototype. -/
structure CacheEntry where
  baseDir : String
  id : RepoRef
  readOnly : Bool
  cloneOptions : CloneOptions
  hasLifecycle : Bool
deriving DecidableEq, Repr

/-- Spread merge performed at the `put` call site in `doWithProject`. -/
def mergeProjectParams (p : GitProject) (params : ProjectLoadingParameters) : CacheEntry :=
  { baseDir := p.baseDir
    id := params.id
    readOnly := params.readOnly
    cloneOptions := params.cloneOptions
    hasLifecycle := params.hasLifecycle }

/-- Value handed to the caller's `action`: on the fresh paths the original
`GitProject` instance returned by the delegate, on a cache hit the plain
merged object previously stored by `put`. The two constructors keep the
instance and the merged plain object distinguishable, as they are in the
running program (the merged object lacks the instance's prototype). -/
inductive Served where
  | fresh (p : GitProject)
  | merged (e : CacheEntry)
deriving DecidableEq, Repr

/-- Checkout directory of a served value, as observed by the action. -/
def Served.baseDir : Served → String
  | .fresh p => p.baseDir
  | .merged e => e.baseDir

/-- Modelled from the spec: `LruCache` is imported from `./support/LruCache`,
whose source file is not among the provided sources. Per the spec it is a
bounded store of capacity `maxEntries` with `get`, `put` and `evict`; when an
insertion would exceed the capacity, the least-recently-used entry (by last
`get`/`put` access time) is evicted. Entries are kept most-recently-used
first, so the last list element is the LRU victim. -/
structure LruCache where
  maxEntries : Nat
  entries : List (CacheKey × CacheEntry)
deriving DecidableEq, Repr

/-- Cache lookup; a hit refreshes the entry's recency (moves it to the
most-recently-used position). Returns the entry found and the updated cache. -/
def LruCache.get (c : LruCache) (k : CacheKey) : Option CacheEntry × LruCache :=
  match c.entries.find? (fun e => decide (e.1 = k)) with
  | some e =>
      (some e.2, { c with entries := (k, e.2) :: c.entries.filter (fun e2 => decide (e2.1 ≠ k)) })
  | none => (none, c)

/-- Explicit eviction of a key; returns the evicted entry (for the eviction
callback) and the updated cache. Evicting an absent key is a no-op. -/
def LruCache.evict (c : LruCache) (k : CacheKey) : Option CacheEntry × LruCache :=
  match c.entries.find? (fun e => decide (e.1 = k)) with
  | some e => (some e.2, { c with entries := c.entries.filter (fun e2 => decide (e2.1 ≠ k)) })
  | none => (none, c)

/-- Insertion; when the store would exceed its capacity, the
least-recently-used entry is evicted and returned (for the eviction
callback) together with the updated cache. -/
def LruCache.put (c : LruCache) (k : CacheKey) (v : CacheEntry) : Option CacheEntry × LruCache :=
  let kept := c.entries.filter (fun e => decide (e.1 ≠ k))
  let entries : List (CacheKey × CacheEntry) := (k, v) :: kept
  if c.maxEntries < entries.length then
    (entries.getLast?.map Prod.snd, { c with entries := entries.dropLast })
  else
    (none, { c with entries := entries })

/-- Number of stored entries. -/
def LruCache.size (c : LruCache) : Nat := c.entries.length

/-- Errors of the embedded program. Only the first two may cross the
`doWithProject` boundary; the filesystem failures exist so that the
catch blocks absorbing them are visible in the embedding. -/
inductive JsError where
  | materialization (msg : String)
  | action (msg : String)
  | fsAccessFailure (path : String)
  | fsRemoveFailure (path : String)
deriving DecidableEq, Repr

/-- Filesystem: the set of currently existing checkout directories. -/
abbrev FileSystem := List String

/-- Record a newly created directory (a successful clone by the delegate). -/
def insertPath (d : String) (fs : FileSystem) : FileSystem :=
  if d ∈ fs then fs else d :: fs

/-- Embedding of `promisify(fs.access)(dir)`: resolves when the directory is
accessible on storage and rejects otherwise. -/
def fsAccess (fs : FileSystem) (d : String) : Except JsError Unit :=
  if d ∈ fs then .ok () else .error (.fsAccessFailure d)

/-- Embedding of `fs.remove(dir)` (recursive removal): succeeds when the
`removeOk` oracle allows it, returning the filesystem without the directory,
and rejects otherwise (e.g. a permissions failure). -/
def fsRemove (removeOk : String → Bool) (fs : FileSystem) (d : String) :
    Except JsError FileSystem :=
  if removeOk d then .ok (fs.filter fun x => decide (x ≠ d)) else .error (.fsRemoveFailure d)

/-- Reclamation trigger, the `reason` argument of `cleanUp`; it only selects
the log message in the source. -/
inductive Reason where
  | timeout
  | disposal
  | eviction
  | shutdown
deriving DecidableEq, Repr

/-- Mutable state of a `CachingProjectLoader` together with its environment:
the cache and the `deleteOnExit` list (the loader's fields), the filesystem,
the scheduled idle-timeout timers `(baseDir, delayMs)` and the disposables
registered on request lifecycles, plus observation logs: every delegate
invocation (`matLog`), every value handed to an action (`actionLog`), and
every attempted `fs.remove` (`removeLog`). -/
structure LoaderState where
  cache : LruCache
  deleteOnExit : List String
  fs : FileSystem
  timers : List (String × Nat)
  disposables : List String
  matLog : List ProjectLoadingParameters
  actionLog : List Served
  removeLog : List String
deriving Repr

/-- Delay of the idle-timeout reclamation timer, from
`setTimeout(..., 10000)` in `saveAndRunAction`. -/
def timeoutDelayMs : Nat := 10000

/-- Capacity default of the constructor parameter `maxEntries: number = 20`. -/
def defaultMaxEntries : Nat := 20

/-- Fresh loader as built by the constructor: empty cache of the given
capacity, empty `deleteOnExit`, and here also an empty environment. -/
def mkState (maxEntries : Nat) : LoaderState :=
  { cache := { maxEntries := maxEntries, entries := [] }
    deleteOnExit := []
    fs := []
    timers := []
    disposables := []
    matLog := []
    actionLog := []
    removeLog := [] }

/-- Embedding of `cachedProjectIsValid`: the stored clone options must be
deep-value-equal to the requested ones, and `fs.access` on the stored
checkout directory must succeed; an access rejection is caught and turned
into `false`. -/
def cachedProjectIsValid (fs : FileSystem) (project : CacheEntry)
    (params : ProjectLoadingParameters) : Bool :=
  if ¬ (project.cloneOptions = params.cloneOptions) then false
  else
    match fsAccess fs project.baseDir with
    | .ok _ => true
    | .error _ => false

/-- Embedding of `cleanUp(dir, reason)`: when `dir` is truthy and
`fs.pathExists(dir)`, attempt `fs.remove(dir)` (recorded in `removeLog`); a
rejection is caught and logged. After a successful removal the source runs
`this.deleteOnExit.slice(ix, 1)` and discards the result —
`Array.prototype.slice` does not mutate, so `deleteOnExit` is unchanged. -/
def cleanUp (removeOk : String → Bool) (st : LoaderState) (dir : String)
    (reason : Reason) : LoaderState :=
  if dir ≠ "" ∧ dir ∈ st.fs then
    let st1 := { st with removeLog := st.removeLog ++ [dir] }
    match fsRemove removeOk st.fs dir with
    | .ok fs2 => { st1 with fs := fs2 }
    | .error _ => st1
  else st

/-- Embedding of the exported `save(pl, params)`: invoke the delegate loader
(recorded in `matLog`); on success the fresh checkout directory exists. -/
def save (delegate : ProjectLoadingParameters → Except String GitProject)
    (st : LoaderState) (params : ProjectLoadingParameters) :
    Except String GitProject × LoaderState :=
  let st1 := { st with matLog := st.matLog ++ [params] }
  match delegate params with
  | .error m => (.error m, st1)
  | .ok p => (.ok p, { st1 with fs := insertPath p.baseDir st1.fs })

/-- Invocation of the caller's `action` on a served value (recorded in
`actionLog`); a rejection from the action surfaces as `JsError.action`. -/
def runAction {α : Type} (st : LoaderState) (s : Served)
    (action : Served → Except String α) : Except JsError α × LoaderState :=
  ((action s).mapError JsError.action, { st with actionLog := st.actionLog ++ [s] })

/-- Embedding of `saveAndRunAction`: fresh checkout from the delegate, then
either register a disposal on the request's lifecycle handle, or schedule the
idle-timeout reclamation and record the path in `deleteOnExit`; finally run
the action. -/
def saveAndRunAction {α : Type}
    (delegate : ProjectLoadingParameters → Except String GitProject)
    (st : LoaderState) (params : ProjectLoadingParameters)
    (action : Served → Except String α) : Except JsError α × LoaderState :=
  match save delegate st params with
  | (.error m, st1) => (.error (.materialization m), st1)
  | (.ok p, st1) =>
    let st2 :=
      if params.hasLifecycle then
        { st1 with disposables := st1.disposables ++ [p.baseDir] }
      else
        { st1 with timers := st1.timers ++ [(p.baseDir, timeoutDelayMs)]
                   deleteOnExit := st1.deleteOnExit ++ [p.baseDir] }
    runAction st2 (.fresh p) action

/-- Cache consultation step of `doWithProject`: `get` the key, keep a valid
entry, and otherwise `evict` the key, running the eviction callback
(`cleanUp` of the victim's directory) and treating the request as a miss. -/
def lookupAndValidate (removeOk : String → Bool) (st : LoaderState)
    (params : ProjectLoadingParameters) (key : CacheKey) :
    Option CacheEntry × LoaderState :=
  let g := st.cache.get key
  let st1 := { st with cache := g.2 }
  match g.1 with
  | none => (none, st1)
  | some project =>
    if cachedProjectIsValid st1.fs project params then (some project, st1)
    else
      let ev := st1.cache.evict key
      let st2 := { st1 with cache := ev.2 }
      match ev.1 with
      | some victim => (none, cleanUp removeOk st2 victim.baseDir .eviction)
      | none => (none, st2)

/-- Embedding of `doWithProject`: non-read-only requests and requests whose
revision is not an exact commit hash take the bypass path
(`saveAndRunAction`); otherwise consult the cache under the content key,
serve a valid entry, refetch on a miss and store the spread merge of the
fresh checkout with the request parameters (an insertion that may evict the
LRU entry, running the eviction callback), and run the action. -/
def doWithProject {α : Type}
    (delegate : ProjectLoadingParameters → Except String GitProject)
    (removeOk : String → Bool) (st : LoaderState)
    (params : ProjectLoadingParameters)
    (action : Served → Except String α) : Except JsError α × LoaderState :=
  if params.readOnly = false then
    saveAndRunAction delegate st params action
  else if isExactSha params.id.sha = false then
    saveAndRunAction delegate st params action
  else
    match lookupAndValidate removeOk st params (cacheKeyForSha params.id) with
    | (some project, st1) => runAction st1 (.merged project) action
    | (none, st1) =>
      match save delegate st1 params with
      | (.error m, st2) => (.error (.materialization m), st2)
      | (.ok p, st2) =>
        let pr := st2.cache.put (cacheKeyForSha params.id) (mergeProjectParams p params)
        let st3 := { st2 with cache := pr.2 }
        let st4 :=
          match pr.1 with
          | some victim => cleanUp removeOk st3 victim.baseDir .eviction
          | none => st3
        runAction st4 (.fresh p) action

/-- Idle-timeout firing for a registered timer: the scheduled
`cleanUp(p.baseDir, "timeout")`. -/
def fireTimer (removeOk : String → Bool) (st : LoaderState) (dir : String) : LoaderState :=
  cleanUp removeOk st dir .timeout

/-- Invocation of a registered disposal by the lifecycle handle's owner:
`cleanUp(p.baseDir, "disposal")`. -/
def runDisposal (removeOk : String → Bool) (st : LoaderState) (dir : String) : LoaderState :=
  cleanUp removeOk st dir .disposal

/-- Shutdown hook registered by the constructor: clean up every path
recorded in `deleteOnExit`. -/
def shutdownFlush (removeOk : String → Bool) (st : LoaderState) : LoaderState :=
  st.deleteOnExit.foldl (fun s d => cleanUp removeOk s d .shutdown) st

/-- Cache Store operation alphabet, for stating store-level invariants over
arbitrary operation sequences. -/
inductive CacheOp where
  | get (k : CacheKey)
  | put (k : CacheKey) (v : CacheEntry)
  | evict (k : CacheKey)
deriving Repr

/-- State reached by one Cache Store operation. -/
def applyOp (c : LruCache) : CacheOp → LruCache
  | .get k => (c.get k).2
  | .put k v => (c.put k v).2
  | .evict k => (c.evict k).2

/-- Load parameters of the i-th request of the capacity scenario: read-only,
revision `shaF i`, empty clone options, no lifecycle handle. -/
def scenarioParams (shaF : Nat → String) (i : Nat) : ProjectLoadingParameters :=
  ⟨⟨"o", "r", shaF i⟩, true, [], false⟩

/-- Delegate of the capacity scenario: each request materializes into a
directory named after its commit hash. -/
def scenarioDelegate : ProjectLoadingParameters → Except String GitProject :=
  fun q => Except.ok ⟨q.id.sha, q.id⟩

/-- Content key of the i-th scenario request. -/
def scenarioKey (shaF : Nat → String) (i : Nat) : CacheKey :=
  ⟨"o", "r", shaF i⟩

/-- Merged entry stored for the i-th scenario request. -/
def scenarioEntry (shaF : Nat → String) (i : Nat) : CacheEntry :=
  ⟨shaF i, ⟨"o", "r", shaF i⟩, true, [], false⟩

/-- Loader state after the first `n` requests of the capacity scenario,
starting from a fresh loader of capacity `maxEntries`. -/
def runSeq (maxEntries : Nat) (shaF : Nat → String) : Nat → LoaderState
  | 0 => mkState maxEntries
  | n + 1 =>
    (doWithProject scenarioDelegate (fun _ => true) (runSeq maxEntries shaF n)
      (scenarioParams shaF n) (fun s => Except.ok s)).2

/-! ## Helper lemmas -/

/-- Reclamation touches only the filesystem and the removal log. -/
theorem cleanUp_cache (removeOk : String → Bool) (st : LoaderState) (dir : String)
    (r : Reason) : (cleanUp removeOk st dir r).cache = st.cache := by
  unfold cleanUp fsRemove
  split <;> [skip; rfl]
  split <;> rfl

theorem cleanUp_matLog (removeOk : String → Bool) (st : LoaderState) (dir : String)
    (r : Reason) : (cleanUp removeOk st dir r).matLog = st.matLog := by
  unfold cleanUp fsRemove
  split <;> [skip; rfl]
  split <;> rfl

theorem cleanUp_actionLog (removeOk : String → Bool) (st : LoaderState) (dir : String)
    (r : Reason) : (cleanUp removeOk st dir r).actionLog = st.actionLog := by
  unfold cleanUp fsRemove
  split <;> [skip; rfl]
  split <;> rfl

theorem cleanUp_deleteOnExit (removeOk : String → Bool) (st : LoaderState) (dir : String)
    (r : Reason) : (cleanUp removeOk st dir r).deleteOnExit = st.deleteOnExit := by
  unfold cleanUp fsRemove
  split <;> [skip; rfl]
  split <;> rfl

theorem cleanUp_timers (removeOk : String → Bool) (st : LoaderState) (dir : String)
    (r : Reason) : (cleanUp removeOk st dir r).timers = st.timers := by
  unfold cleanUp fsRemove
  split <;> [skip; rfl]
  split <;> rfl

theorem cleanUp_disposables (removeOk : String → Bool) (st : LoaderState) (dir : String)
    (r : Reason) : (cleanUp removeOk st dir r).disposables = st.disposables := by
  unfold cleanUp fsRemove
  split <;> [skip; rfl]
  split <;> rfl

/-- Paths other than the reclaimed one survive reclamation. -/
theorem cleanUp_fs_mem (removeOk : String → Bool) (st : LoaderState) (dir : String)
    (r : Reason) (a : String) (hne : a ≠ dir) :
    a ∈ (cleanUp removeOk st dir r).fs ↔ a ∈ st.fs := by
  unfold cleanUp fsRemove
  split
  · split
    · rename_i fs2 heq
      split at heq
      · cases heq
        simp [List.mem_filter, hne]
      · exact absurd heq (by simp)
    · exact Iff.rfl
  · exact Iff.rfl

theorem insertPath_mem_self (d : String) (fs : FileSystem) : d ∈ insertPath d fs := by
  unfold insertPath
  split <;> simp_all

theorem insertPath_mem_of_mem (a d : String) (fs : FileSystem) (h : a ∈ fs) :
    a ∈ insertPath d fs := by
  unfold insertPath
  split <;> simp_all

/-- Complete characterization of `saveAndRunAction` when the delegate
materializes successfully. -/
theorem saveAndRunAction_ok {α : Type}
    (delegate : ProjectLoadingParameters → Except String GitProject)
    (st : LoaderState) (params : ProjectLoadingParameters)
    (action : Served → Except String α) (p : GitProject)
    (hok : delegate params = Except.ok p) :
    saveAndRunAction delegate st params action =
      ((action (.fresh p)).mapError JsError.action,
        { st with
            matLog := st.matLog ++ [params]
            fs := insertPath p.baseDir st.fs
            disposables :=
              if params.hasLifecycle then st.disposables ++ [p.baseDir] else st.disposables
            timers :=
              if params.hasLifecycle then st.timers
              else st.timers ++ [(p.baseDir, timeoutDelayMs)]
            deleteOnExit :=
              if params.hasLifecycle then st.deleteOnExit
              else st.deleteOnExit ++ [p.baseDir]
            actionLog := st.actionLog ++ [.fresh p] }) := by
  unfold saveAndRunAction save runAction
  rw [hok]
  cases hl : params.hasLifecycle <;> simp [hl]

/-- Requests that are not read-only, or whose revision designator is not an
exact commit hash, are routed to `saveAndRunAction`. -/
theorem doWithProject_bypass {α : Type}
    (delegate : ProjectLoadingParameters → Except String GitProject)
    (removeOk : String → Bool) (st : LoaderState)
    (params : ProjectLoadingParameters) (action : Served → Except String α)
    (h : params.readOnly = false ∨ isExactSha params.id.sha = false) :
    doWithProject delegate removeOk st params action =
      saveAndRunAction delegate st params action := by
  unfold doWithProject
  rcases h with h | h
  · simp [h]
  · by_cases hr : params.readOnly = false
    · simp [hr]
    · simp [hr, h]

/-! ## Claim theorems -/

/-- C3: the validity check accepts a cached entry exactly when its stored
clone options are deep-value-equal to the request's clone options and its
checkout directory is accessible on storage; a storage-access rejection is
caught and turned into `false`, never propagated to the caller. -/
theorem cachedProjectIsValid_iff_valid (fs : FileSystem) (e : CacheEntry)
    (params : ProjectLoadingParameters) :
    (cachedProjectIsValid fs e params = true ↔
      e.cloneOptions = params.cloneOptions ∧ fsAccess fs e.baseDir = Except.ok ()) ∧
    (∀ err, fsAccess fs e.baseDir = Except.error err →
      cachedProjectIsValid fs e params = false) := by
  by_cases h1 : e.cloneOptions = params.cloneOptions <;>
    by_cases h2 : e.baseDir ∈ fs <;>
      simp [cachedProjectIsValid, fsAccess, h1, h2]

/-- Witness for C3: a concrete valid entry, plus concrete rejections for a
missing directory and for differing clone options. -/
theorem cachedProjectIsValid_iff_valid_witness :
    cachedProjectIsValid ["d"] ⟨"d", ⟨"o", "r", "s"⟩, true, [], false⟩
        ⟨⟨"o", "r", "s"⟩, true, [], false⟩ = true ∧
    cachedProjectIsValid [] ⟨"d", ⟨"o", "r", "s"⟩, true, [], false⟩
        ⟨⟨"o", "r", "s"⟩, true, [], false⟩ = false :=
  ⟨(cachedProjectIsValid_iff_valid ["d"] _ _).1.mpr ⟨rfl, by simp [fsAccess]⟩,
   (cachedProjectIsValid_iff_valid [] _ _).2 (.fsAccessFailure "d") (by simp [fsAccess])⟩

/-- C5 (code bug): at a concrete failing input — directory `"p"` present on
storage and recorded in the pending-deletion list — the reclamation routine
removes the directory from storage (one `fs.remove` performed), yet the path
remains in `deleteOnExit`: the source's `this.deleteOnExit.slice(ix, 1)`
discards its result, because `Array.prototype.slice` copies without
mutating (`splice` was evidently intended), so the pending-deletion list is
never pruned, contrary to the claim that `cleanUp` removes the path from it. -/
theorem cleanUp_keeps_pending_entry :
    ((cleanUp (fun _ => true)
        { mkState 20 with fs := ["p"], deleteOnExit := ["p"] } "p" .timeout).deleteOnExit
      = ["p"]) ∧
    ((cleanUp (fun _ => true)
        { mkState 20 with fs := ["p"], deleteOnExit := ["p"] } "p" .timeout).fs
      = []) ∧
    ((cleanUp (fun _ => true)
        { mkState 20 with fs := ["p"], deleteOnExit := ["p"] } "p" .timeout).removeLog
      = ["p"]) := by
  refine ⟨?_, ?_, ?_⟩ <;> rfl

/-- C2: a request with `readOnly = false`, and likewise a request whose
revision designator is not a syntactically valid exact commit hash, takes
the bypass path: the delegate is asked for a fresh checkout, no entry is put
into the Cache Store (the cache is untouched), the checkout is registered
with the lifecycle coordinator (a scoped disposal, or the idle-timeout timer
plus the pending-deletion list), the action runs on the fresh checkout, and
the action's result is returned. -/
theorem doWithProject_bypass_path {α : Type}
    (delegate : ProjectLoadingParameters → Except String GitProject)
    (removeOk : String → Bool) (st : LoaderState)
    (params : ProjectLoadingParameters) (action : Served → Except String α)
    (p : GitProject)
    (hbp : params.readOnly = false ∨ isExactSha params.id.sha = false)
    (hok : delegate params = Except.ok p) :
    (doWithProject delegate removeOk st params action).2.cache = st.cache ∧
    (doWithProject delegate removeOk st params action).2.matLog = st.matLog ++ [params] ∧
    (doWithProject delegate removeOk st params action).2.actionLog
      = st.actionLog ++ [Served.fresh p] ∧
    (doWithProject delegate removeOk st params action).1
      = (action (Served.fresh p)).mapError JsError.action ∧
    ((doWithProject delegate removeOk st params action).2.disposables
        = st.disposables ++ [p.baseDir] ∨
      ((doWithProject delegate removeOk st params action).2.timers
          = st.timers ++ [(p.baseDir, timeoutDelayMs)] ∧
        (doWithProject delegate removeOk st params action).2.deleteOnExit
          = st.deleteOnExit ++ [p.baseDir])) := by
  rw [doWithProject_bypass delegate removeOk st params action hbp,
    saveAndRunAction_ok delegate st params action p hok]
  cases hl : params.hasLifecycle <;> simp [hl]

/-- Witness for C2: a read-only request for branch `"main"` (not an exact
hash) is bypassed; concrete delegate, action and state. -/
theorem doWithProject_bypass_path_witness :
    (doWithProject (fun _ => Except.ok ⟨"dir", ⟨"o", "r", "main"⟩⟩) (fun _ => true)
        (mkState 20) ⟨⟨"o", "r", "main"⟩, true, [], false⟩
        (fun s => Except.ok s.baseDir)).2.cache = (mkState 20).cache :=
  (doWithProject_bypass_path _ _ _ _ _ ⟨"dir", ⟨"o", "r", "main"⟩⟩
    (Or.inr (by decide)) rfl).1

/-- C6: on the bypass path exactly one lifecycle registration happens per
checkout. With a request-scoped lifecycle handle, a disposal is registered
and neither a timer nor a pending-deletion entry is created; without one,
a delayed reclamation with the 10-second (10000 ms) delay is scheduled and
the path is recorded in the process-wide pending-deletion list, while no
disposal is registered. In both cases the action still runs and its result
is returned, so the scheduled reclamation does not block the request. -/
theorem saveAndRunAction_lifecycle_registration {α : Type}
    (delegate : ProjectLoadingParameters → Except String GitProject)
    (removeOk : String → Bool) (st : LoaderState)
    (params : ProjectLoadingParameters) (action : Served → Except String α)
    (p : GitProject)
    (hbp : params.readOnly = false ∨ isExactSha params.id.sha = false)
    (hok : delegate params = Except.ok p) :
    timeoutDelayMs = 10000 ∧
    (params.hasLifecycle = true →
      (doWithProject delegate removeOk st params action).2.disposables
          = st.disposables ++ [p.baseDir] ∧
      (doWithProject delegate removeOk st params action).2.timers = st.timers ∧
      (doWithProject delegate removeOk st params action).2.deleteOnExit
          = st.deleteOnExit) ∧
    (params.hasLifecycle = false →
      (doWithProject delegate removeOk st params action).2.disposables
          = st.disposables ∧
      (doWithProject delegate removeOk st params action).2.timers
          = st.timers ++ [(p.baseDir, timeoutDelayMs)] ∧
      (doWithProject delegate removeOk st params action).2.deleteOnExit
          = st.deleteOnExit ++ [p.baseDir]) ∧
    (doWithProject delegate removeOk st params action).2.actionLog
      = st.actionLog ++ [Served.fresh p] ∧
    (doWithProject delegate removeOk st params action).1
      = (action (Served.fresh p)).mapError JsError.action := by
  rw [doWithProject_bypass delegate removeOk st params action hbp,
    saveAndRunAction_ok delegate st params action p hok]
  cases hl : params.hasLifecycle <;> simp [hl, timeoutDelayMs]

/-- Witness for C6: a non-read-only request whose parameters carry a
lifecycle handle registers a disposal and nothing else. -/
theorem saveAndRunAction_lifecycle_registration_witness :
    (doWithProject (fun _ => Except.ok ⟨"dir2", ⟨"o", "r", "b"⟩⟩) (fun _ => true)
        (mkState 20) ⟨⟨"o", "r", "b"⟩, false, [], true⟩
        (fun s => Except.ok s.baseDir)).2.disposables = [] ++ ["dir2"] :=
  ((saveAndRunAction_lifecycle_registration _ _ (mkState 20) _ _
      ⟨"dir2", ⟨"o", "r", "b"⟩⟩ (Or.inl rfl) rfl).2.1 rfl).1

/-- Errors surfacing from an action invocation are action errors. -/
theorem runAction_error {α : Type} (st : LoaderState) (s : Served)
    (action : Served → Except String α) (e : JsError)
    (h : (runAction st s action).1 = .error e) : ∃ m, e = JsError.action m := by
  unfold runAction at h
  cases hA : action s <;> simp [hA, Except.mapError] at h
  exact ⟨_, h.symm⟩

/-- Errors surfacing from the bypass helper are materialization or action
errors. -/
theorem saveAndRunAction_error {α : Type}
    (delegate : ProjectLoadingParameters → Except String GitProject)
    (st : LoaderState) (params : ProjectLoadingParameters)
    (action : Served → Except String α) (e : JsError)
    (h : (saveAndRunAction delegate st params action).1 = .error e) :
    (∃ m, e = JsError.materialization m) ∨ (∃ m, e = JsError.action m) := by
  unfold saveAndRunAction save at h
  cases hd : delegate params <;> rw [hd] at h
  · simp at h
    exact Or.inl ⟨_, h.symm⟩
  · exact Or.inr (runAction_error _ _ _ _ h)

/-- C8: the only errors that ever cross the `doWithProject` boundary are a
materialization failure from the delegate loader and an error thrown by the
caller's action; every cache-management failure (validity-probe storage
failure, reclamation failure, eviction-callback failure) is caught and
absorbed, for every choice of the `removeOk` oracle and starting state, and
a failed load surfaces as the single error of the one call. -/
theorem doWithProject_error_propagation {α : Type}
    (delegate : ProjectLoadingParameters → Except String GitProject)
    (removeOk : String → Bool) (st : LoaderState)
    (params : ProjectLoadingParameters) (action : Served → Except String α)
    (e : JsError)
    (h : (doWithProject delegate removeOk st params action).1 = .error e) :
    (∃ m, e = JsError.materialization m) ∨ (∃ m, e = JsError.action m) := by
  unfold doWithProject at h
  split at h
  · exact saveAndRunAction_error _ _ _ _ _ h
  · split at h
    · exact saveAndRunAction_error _ _ _ _ _ h
    · split at h
      · exact Or.inr (runAction_error _ _ _ _ h)
      · split at h
        · simp at h
          exact Or.inl ⟨_, h.symm⟩
        · exact Or.inr (runAction_error _ _ _ _ h)

/-- Witness for C8: a failing delegate surfaces exactly its materialization
error from a non-read-only request. -/
theorem doWithProject_error_propagation_witness :
    (doWithProject (fun _ => Except.error "boom") (fun _ => true) (mkState 20)
        ⟨⟨"o", "r", "b"⟩, false, [], false⟩ (fun s => Except.ok s.baseDir)).1
      = Except.error (JsError.materialization "boom") ∧
    ((∃ m, JsError.materialization "boom" = JsError.materialization m) ∨
      (∃ m, JsError.materialization "boom" = JsError.action m)) :=
  ⟨rfl,
    doWithProject_error_propagation (fun _ => Except.error "boom") (fun _ => true)
      (mkState 20) ⟨⟨"o", "r", "b"⟩, false, [], false⟩ (fun s => Except.ok s.baseDir)
      (JsError.materialization "boom") rfl⟩

/-- Reclamation of an absent directory is a no-op. -/
theorem cleanUp_absent (removeOk : String → Bool) (st : LoaderState) (dir : String)
    (r : Reason) (h : dir ∉ st.fs) : cleanUp removeOk st dir r = st := by
  simp [cleanUp, h]

/-- Reclamation of a present directory with a succeeding removal deletes the
directory and records one removal. -/
theorem cleanUp_present (removeOk : String → Bool) (st : LoaderState) (dir : String)
    (r : Reason) (hne : dir ≠ "") (hmem : dir ∈ st.fs) (hok : removeOk dir = true) :
    cleanUp removeOk st dir r =
      { st with fs := st.fs.filter (fun x => decide (x ≠ dir))
                removeLog := st.removeLog ++ [dir] } := by
  simp [cleanUp, fsRemove, hne, hmem, hok]

/-- Repeated reclamation of a directory that is already gone does nothing. -/
theorem cleanUp_fold_noop (removeOk : String → Bool) (st : LoaderState) (dir : String)
    (rs : List Reason) (h : dir ∉ st.fs) :
    rs.foldl (fun s r => cleanUp removeOk s dir r) st = st := by
  induction rs with
  | nil => rfl
  | cons r rs ih => rw [List.foldl_cons, cleanUp_absent _ _ _ _ h, ih]

/-- C9: across any sequence of reclamation triggers (idle timeout, scoped
disposal, cache eviction, shutdown flush) hitting the same checkout
directory, the existence guard of the shared routine makes the recursive
removal happen exactly once: a single `fs.remove` is performed — by the
first trigger — and the directory is gone afterwards, every later trigger
finding nothing to do. -/
theorem cleanUp_reclaims_exactly_once (removeOk : String → Bool) (st : LoaderState)
    (dir : String) (r0 : Reason) (rs : List Reason)
    (hne : dir ≠ "") (hmem : dir ∈ st.fs) (hok : removeOk dir = true) :
    ((r0 :: rs).foldl (fun s r => cleanUp removeOk s dir r) st).removeLog
        = st.removeLog ++ [dir] ∧
    dir ∉ ((r0 :: rs).foldl (fun s r => cleanUp removeOk s dir r) st).fs := by
  have h1 := cleanUp_present removeOk st dir r0 hne hmem hok
  have hnot : dir ∉ (cleanUp removeOk st dir r0).fs := by
    rw [h1]
    simp [List.mem_filter]
  rw [List.foldl_cons, cleanUp_fold_noop _ _ _ _ hnot, h1]
  refine ⟨rfl, ?_⟩
  simp [List.mem_filter]

/-- Witness for C9: directory `"p"`, triggers timeout then disposal then
shutdown; one removal, directory gone. -/
theorem cleanUp_reclaims_exactly_once_witness :
    (([Reason.timeout, Reason.disposal, Reason.shutdown]).foldl
        (fun s r => cleanUp (fun _ => true) s "p" r)
        { mkState 20 with fs := ["p"] }).removeLog
      = ({ mkState 20 with fs := ["p"] } : LoaderState).removeLog ++ ["p"] :=
  (cleanUp_reclaims_exactly_once (fun _ => true) { mkState 20 with fs := ["p"] } "p"
    Reason.timeout [Reason.disposal, Reason.shutdown] (by decide) (by decide) rfl).1

/-- A lookup that finds nothing leaves the state untouched. -/
theorem lookupAndValidate_none (removeOk : String → Bool) (st : LoaderState)
    (params : ProjectLoadingParameters) (key : CacheKey)
    (hF : st.cache.entries.find? (fun kv => decide (kv.1 = key)) = none) :
    lookupAndValidate removeOk st params key = (none, st) := by
  simp [lookupAndValidate, LruCache.get, hF]

/-- A lookup that finds a valid entry serves it, refreshing its recency. -/
theorem lookupAndValidate_hit (removeOk : String → Bool) (st : LoaderState)
    (params : ProjectLoadingParameters) (key : CacheKey) (k0 : CacheKey) (e : CacheEntry)
    (hF : st.cache.entries.find? (fun kv => decide (kv.1 = key)) = some (k0, e))
    (hval : cachedProjectIsValid st.fs e params = true) :
    lookupAndValidate removeOk st params key =
      (some e,
        { st with cache := { st.cache with entries :=
            (key, e) :: st.cache.entries.filter (fun kv => decide (kv.1 ≠ key)) } }) := by
  simp [lookupAndValidate, LruCache.get, hF, hval]

/-- A lookup that finds an invalid entry evicts the key, runs the eviction
callback on the entry's directory, and reports a miss. -/
theorem lookupAndValidate_invalid (removeOk : String → Bool) (st : LoaderState)
    (params : ProjectLoadingParameters) (key : CacheKey) (k0 : CacheKey) (e : CacheEntry)
    (hF : st.cache.entries.find? (fun kv => decide (kv.1 = key)) = some (k0, e))
    (hval : cachedProjectIsValid st.fs e params = false) :
    lookupAndValidate removeOk st params key =
      (none,
        cleanUp removeOk
          { st with cache := { st.cache with
              entries := st.cache.entries.filter (fun kv => decide (kv.1 ≠ key)) } }
          e.baseDir .eviction) := by
  simp [lookupAndValidate, LruCache.get, LruCache.evict, hF, hval, List.filter_filter]

/-- The cache consultation never changes the configured capacity. -/
theorem lookupAndValidate_maxEntries (removeOk : String → Bool) (st : LoaderState)
    (params : ProjectLoadingParameters) (key : CacheKey) :
    (lookupAndValidate removeOk st params key).2.cache.maxEntries
      = st.cache.maxEntries := by
  rcases hF : st.cache.entries.find? (fun kv => decide (kv.1 = key)) with _ | ⟨k0, e⟩
  · rw [lookupAndValidate_none removeOk st params key hF]
  · by_cases hval : cachedProjectIsValid st.fs e params = true
    · rw [lookupAndValidate_hit removeOk st params key k0 e hF hval]
    · rw [lookupAndValidate_invalid removeOk st params key k0 e hF
        (Bool.not_eq_true _ ▸ hval), cleanUp_cache]

/-- The freshly put entry is found under its key afterwards (the capacity is
at least one, so the insertion itself survives a capacity eviction). -/
theorem LruCache.put_get_self (c : LruCache) (k : CacheKey) (v : CacheEntry)
    (hmax : 1 ≤ c.maxEntries) :
    ((c.put k v).2).entries.find? (fun kv => decide (kv.1 = k)) = some (k, v) := by
  simp only [LruCache.put]
  split
  · rename_i hlen
    cases hk : c.entries.filter (fun e => decide (e.1 ≠ k)) with
    | nil =>
      rw [hk] at hlen
      simp at hlen
      omega
    | cons b l => simp [hk, List.dropLast_cons₂]
  · simp

/-- A victim evicted by `put` was already stored before the insertion. -/
theorem LruCache.put_victim_mem (c : LruCache) (k : CacheKey) (v : CacheEntry)
    (victim : CacheEntry) (hmax : 1 ≤ c.maxEntries)
    (h : (c.put k v).1 = some victim) :
    ∃ k', (k', victim) ∈ c.entries := by
  simp only [LruCache.put] at h
  split at h
  · rename_i hlen
    cases hk : c.entries.filter (fun e => decide (e.1 ≠ k)) with
    | nil =>
      rw [hk] at hlen
      simp at hlen
      omega
    | cons b l =>
      rw [hk] at h
      rw [List.getLast?_cons_cons] at h
      have h2 : Option.map Prod.snd ((b :: l).getLast?) = some victim := h
      rcases Option.map_eq_some'.mp h2 with ⟨⟨k1, v1⟩, hpair, hsnd⟩
      have hmem : (k1, v1) ∈ b :: l := List.mem_of_getLast?_eq_some hpair
      have hsub : (k1, v1) ∈ c.entries.filter (fun e => decide (e.1 ≠ k)) := by
        rw [hk]
        exact hmem
      have hin : (k1, v1) ∈ c.entries := List.mem_of_mem_filter hsub
      cases hsnd
      exact ⟨k1, hin⟩
  · exact absurd h (by simp)

/-- On a read-only exact-hash request whose lookup yields a valid entry, the
action receives the stored merged object and nothing else changes. -/
theorem doWithProject_hit_serve {α : Type}
    (delegate : ProjectLoadingParameters → Except String GitProject)
    (removeOk : String → Bool) (st : LoaderState)
    (params : ProjectLoadingParameters) (action : Served → Except String α)
    (e : CacheEntry) (st1 : LoaderState)
    (hro : params.readOnly = true) (hsha : isExactSha params.id.sha = true)
    (hlv : lookupAndValidate removeOk st params (cacheKeyForSha params.id) = (some e, st1)) :
    doWithProject delegate removeOk st params action =
      ((action (.merged e)).mapError JsError.action,
        { st1 with actionLog := st1.actionLog ++ [.merged e] }) := by
  simp [doWithProject, hro, hsha, hlv, runAction]

/-- On a read-only exact-hash request whose lookup reports a miss, the
delegate is invoked once, the merged entry is stored under the content key
(surviving any capacity eviction), the fresh checkout's directory exists
afterwards provided no stored entry aliased it, and the action runs on the
fresh checkout. -/
theorem doWithProject_populate {α : Type}
    (delegate : ProjectLoadingParameters → Except String GitProject)
    (removeOk : String → Bool) (st : LoaderState)
    (params : ProjectLoadingParameters) (action : Served → Except String α)
    (p : GitProject) (st1 : LoaderState)
    (hro : params.readOnly = true) (hsha : isExactSha params.id.sha = true)
    (hlv : lookupAndValidate removeOk st params (cacheKeyForSha params.id) = (none, st1))
    (hok : delegate params = Except.ok p)
    (hmax : 1 ≤ st.cache.maxEntries) :
    (doWithProject delegate removeOk st params action).1
        = (action (.fresh p)).mapError JsError.action ∧
    (doWithProject delegate removeOk st params action).2.matLog
        = st1.matLog ++ [params] ∧
    (doWithProject delegate removeOk st params action).2.actionLog
        = st1.actionLog ++ [Served.fresh p] ∧
    (doWithProject delegate removeOk st params action).2.cache.entries.find?
        (fun kv => decide (kv.1 = cacheKeyForSha params.id))
      = some (cacheKeyForSha params.id, mergeProjectParams p params) ∧
    ((∀ kv ∈ st1.cache.entries, kv.2.baseDir ≠ p.baseDir) →
      p.baseDir ∈ (doWithProject delegate removeOk st params action).2.fs) := by
  have hmaxeq := lookupAndValidate_maxEntries removeOk st params (cacheKeyForSha params.id)
  rw [hlv] at hmaxeq
  simp only at hmaxeq
  have hmax1 : 1 ≤ st1.cache.maxEntries := by omega
  have hput := LruCache.put_get_self st1.cache (cacheKeyForSha params.id)
    (mergeProjectParams p params) hmax1
  cases hpr : (st1.cache.put (cacheKeyForSha params.id) (mergeProjectParams p params)).1 with
  | none =>
    refine ⟨?_, ?_, ?_, ?_, ?_⟩ <;>
      simp [doWithProject, hro, hsha, hlv, save, hok, runAction, hpr, hput,
        insertPath_mem_self]
  | some v =>
    have hvm : ∃ k', (k', v) ∈ st1.cache.entries :=
      LruCache.put_victim_mem st1.cache (cacheKeyForSha params.id)
        (mergeProjectParams p params) v hmax1 hpr
    refine ⟨?_, ?_, ?_, ?_, ?_⟩ <;>
      simp [doWithProject, hro, hsha, hlv, save, hok, runAction, hpr, hput,
        cleanUp_matLog, cleanUp_actionLog, cleanUp_cache]
    intro hfresh
    obtain ⟨k1, hk1⟩ := hvm
    have hne : p.baseDir ≠ v.baseDir := fun hcontra =>
      hfresh k1 v hk1 hcontra.symm
    rw [cleanUp_fs_mem removeOk _ v.baseDir Reason.eviction p.baseDir hne]
    exact insertPath_mem_self _ _

/-- A request against a state holding the merged entry under the content key
with its directory on storage is served from the cache: the action receives
the stored merged object, and the delegate is not consulted. -/
theorem doWithProject_after_populate {α : Type}
    (delegate : ProjectLoadingParameters → Except String GitProject)
    (removeOk : String → Bool) (st' : LoaderState)
    (params : ProjectLoadingParameters) (action2 : Served → Except String α)
    (p : GitProject)
    (hro : params.readOnly = true) (hsha : isExactSha params.id.sha = true)
    (hF2 : st'.cache.entries.find? (fun kv => decide (kv.1 = cacheKeyForSha params.id))
      = some (cacheKeyForSha params.id, mergeProjectParams p params))
    (hmem : p.baseDir ∈ st'.fs) :
    (doWithProject delegate removeOk st' params action2).2.actionLog
        = st'.actionLog ++ [Served.merged (mergeProjectParams p params)] ∧
    (doWithProject delegate removeOk st' params action2).2.matLog = st'.matLog ∧
    (doWithProject delegate removeOk st' params action2).1
        = (action2 (Served.merged (mergeProjectParams p params))).mapError JsError.action := by
  have hval2 : cachedProjectIsValid st'.fs (mergeProjectParams p params) params = true := by
    simp [cachedProjectIsValid, fsAccess, mergeProjectParams, hmem]
  have hlv2 := lookupAndValidate_hit removeOk st' params (cacheKeyForSha params.id)
    (cacheKeyForSha params.id) (mergeProjectParams p params) hF2 hval2
  rw [doWithProject_hit_serve delegate removeOk st' params action2
    (mergeProjectParams p params) _ hro hsha hlv2]
  exact ⟨rfl, rfl, rfl⟩

/-- C4: a read-only exact-hash request that finds a cached entry failing the
validity check (for example because its backing directory was deleted
out-of-band) treats the entry as a miss — evicting the key — performs
exactly one fresh materialization, stores the new merged entry under the
content key, and completes with the action's result, surfacing no error
from the cache management. -/
theorem doWithProject_invalid_entry_refetch {α : Type}
    (delegate : ProjectLoadingParameters → Except String GitProject)
    (removeOk : String → Bool) (st : LoaderState)
    (params : ProjectLoadingParameters) (action : Served → Except String α)
    (k0 : CacheKey) (e : CacheEntry) (p : GitProject)
    (hro : params.readOnly = true) (hsha : isExactSha params.id.sha = true)
    (hF : st.cache.entries.find? (fun kv => decide (kv.1 = cacheKeyForSha params.id))
      = some (k0, e))
    (hval : cachedProjectIsValid st.fs e params = false)
    (hok : delegate params = Except.ok p)
    (hmax : 1 ≤ st.cache.maxEntries) :
    (lookupAndValidate removeOk st params (cacheKeyForSha params.id)).1 = none ∧
    (doWithProject delegate removeOk st params action).2.matLog
        = st.matLog ++ [params] ∧
    (doWithProject delegate removeOk st params action).2.cache.entries.find?
        (fun kv => decide (kv.1 = cacheKeyForSha params.id))
      = some (cacheKeyForSha params.id, mergeProjectParams p params) ∧
    (doWithProject delegate removeOk st params action).1
        = (action (Served.fresh p)).mapError JsError.action := by
  have hlv := lookupAndValidate_invalid removeOk st params (cacheKeyForSha params.id)
    k0 e hF hval
  have hpop := doWithProject_populate delegate removeOk st params action p _
    hro hsha hlv hok hmax
  refine ⟨by rw [hlv], ?_, hpop.2.2.2.1, hpop.1⟩
  rw [hpop.2.1, cleanUp_matLog]

/-- Witness for C4: a cached entry whose directory `"gone"` is absent from
storage; the request refetches, logging exactly one materialization. -/
theorem doWithProject_invalid_entry_refetch_witness :
    (doWithProject (fun _ => Except.ok ⟨"fresh", ⟨"o", "r",
          "aaaaaaaaaaaaaaaaaaaaaaaaaaaaaaaaaaaaaaaa"⟩⟩) (fun _ => true)
        { mkState 20 with cache := ⟨20,
            [(⟨"o", "r", "aaaaaaaaaaaaaaaaaaaaaaaaaaaaaaaaaaaaaaaa"⟩,
              ⟨"gone", ⟨"o", "r", "aaaaaaaaaaaaaaaaaaaaaaaaaaaaaaaaaaaaaaaa"⟩,
                true, [], false⟩)]⟩ }
        ⟨⟨"o", "r", "aaaaaaaaaaaaaaaaaaaaaaaaaaaaaaaaaaaaaaaa"⟩, true, [], false⟩
        (fun s => Except.ok s.baseDir)).2.matLog
      = [] ++ [⟨⟨"o", "r", "aaaaaaaaaaaaaaaaaaaaaaaaaaaaaaaaaaaaaaaa"⟩,
          true, [], false⟩] :=
  (doWithProject_invalid_entry_refetch _ _ _ _ _
    ⟨"o", "r", "aaaaaaaaaaaaaaaaaaaaaaaaaaaaaaaaaaaaaaaa"⟩
    ⟨"gone", ⟨"o", "r", "aaaaaaaaaaaaaaaaaaaaaaaaaaaaaaaaaaaaaaaa"⟩, true, [], false⟩
    ⟨"fresh", ⟨"o", "r", "aaaaaaaaaaaaaaaaaaaaaaaaaaaaaaaaaaaaaaaa"⟩⟩
    rfl (by decide) (by decide) (by decide) rfl (by decide)).2.1

/-- C10: the value served by a cache hit is the object stored at insertion
time — the shallow spread merge of the checkout's own fields with every
field of the inserting request's parameters: `readOnly`, `cloneOptions`,
the lifecycle context and `id` come from the parameters (spread last), the
checkout path from the checkout, and the served value is the plain merged
record, not the original `GitProject` instance, so nothing inherited from
the instance's prototype is carried over. -/
theorem doWithProject_hit_serves_merged {α : Type}
    (delegate : ProjectLoadingParameters → Except String GitProject)
    (removeOk : String → Bool) (st : LoaderState)
    (params : ProjectLoadingParameters) (action1 : Served → Except String α)
    (p : GitProject)
    (hempty : st.cache.entries = [])
    (hro : params.readOnly = true) (hsha : isExactSha params.id.sha = true)
    (hok : delegate params = Except.ok p)
    (hmax : 1 ≤ st.cache.maxEntries) :
    (doWithProject delegate removeOk
        (doWithProject delegate removeOk st params action1).2 params
        (fun s => Except.ok s)).1
      = Except.ok (Served.merged (mergeProjectParams p params)) ∧
    (mergeProjectParams p params).readOnly = params.readOnly ∧
    (mergeProjectParams p params).cloneOptions = params.cloneOptions ∧
    (mergeProjectParams p params).hasLifecycle = params.hasLifecycle ∧
    (mergeProjectParams p params).id = params.id ∧
    (mergeProjectParams p params).baseDir = p.baseDir ∧
    (∀ q : GitProject, Served.merged (mergeProjectParams p params) ≠ Served.fresh q) := by
  have hF1 : st.cache.entries.find? (fun kv => decide (kv.1 = cacheKeyForSha params.id))
      = none := by
    rw [hempty]
    rfl
  have hlv1 := lookupAndValidate_none removeOk st params (cacheKeyForSha params.id) hF1
  have hpop := doWithProject_populate delegate removeOk st params action1 p st
    hro hsha hlv1 hok hmax
  have hfresh : ∀ kv ∈ st.cache.entries, kv.2.baseDir ≠ p.baseDir := by
    rw [hempty]
    intro kv hkv
    cases hkv
  have hmem := hpop.2.2.2.2 hfresh
  have hserve := doWithProject_after_populate delegate removeOk
    (doWithProject delegate removeOk st params action1).2 params (fun s => Except.ok s) p
    hro hsha hpop.2.2.2.1 hmem
  refine ⟨?_, rfl, rfl, rfl, rfl, rfl, ?_⟩
  · rw [hserve.2.2]
    rfl
  · intro q h
    cases h

/-- Witness for C10: concrete pair of identical read-only requests from an
empty cache; the second is served with the merged stored object. -/
theorem doWithProject_hit_serves_merged_witness :
    (doWithProject (fun _ => Except.ok ⟨"co", ⟨"ow", "re",
          "bbbbbbbbbbbbbbbbbbbbbbbbbbbbbbbbbbbbbbbb"⟩⟩) (fun _ => true)
        (doWithProject (fun _ => Except.ok ⟨"co", ⟨"ow", "re",
            "bbbbbbbbbbbbbbbbbbbbbbbbbbbbbbbbbbbbbbbb"⟩⟩) (fun _ => true)
          (mkState 20)
          ⟨⟨"ow", "re", "bbbbbbbbbbbbbbbbbbbbbbbbbbbbbbbbbbbbbbbb"⟩, true, [], false⟩
          (fun s => Except.ok s)).2
        ⟨⟨"ow", "re", "bbbbbbbbbbbbbbbbbbbbbbbbbbbbbbbbbbbbbbbb"⟩, true, [], false⟩
        (fun s => Except.ok s)).1
      = Except.ok (Served.merged (mergeProjectParams
          ⟨"co", ⟨"ow", "re", "bbbbbbbbbbbbbbbbbbbbbbbbbbbbbbbbbbbbbbbb"⟩⟩
          ⟨⟨"ow", "re", "bbbbbbbbbbbbbbbbbbbbbbbbbbbbbbbbbbbbbbbb"⟩, true, [], false⟩)) :=
  (doWithProject_hit_serves_merged _ _ (mkState 20) _ _
    ⟨"co", ⟨"ow", "re", "bbbbbbbbbbbbbbbbbbbbbbbbbbbbbbbbbbbbbbbb"⟩⟩
    rfl rfl (by decide) rfl (by decide)).1

/-- C1: two read-only requests with the same repository identity and the
same exact commit hash (identical load parameters) invoke the delegate
loader at most once: the second call never consults the delegate, its
action receives a value served from the Cache Store — a stored merged
entry — and that value's checkout path equals the path served to the first
call's action. The delegate's fresh checkout directory is assumed not to
alias a directory already stored in the cache. -/
theorem doWithProject_second_request_cache_hit {α β : Type}
    (delegate : ProjectLoadingParameters → Except String GitProject)
    (removeOk : String → Bool) (st : LoaderState)
    (params : ProjectLoadingParameters)
    (action1 : Served → Except String α) (action2 : Served → Except String β)
    (p : GitProject)
    (hro : params.readOnly = true) (hsha : isExactSha params.id.sha = true)
    (hok : delegate params = Except.ok p)
    (hmax : 1 ≤ st.cache.maxEntries)
    (hfresh : ∀ kv ∈ st.cache.entries, kv.2.baseDir ≠ p.baseDir) :
    ∃ s1 s2 : Served,
      (doWithProject delegate removeOk st params action1).2.actionLog
          = st.actionLog ++ [s1] ∧
      (doWithProject delegate removeOk
          (doWithProject delegate removeOk st params action1).2 params action2).2.actionLog
        = (doWithProject delegate removeOk st params action1).2.actionLog ++ [s2] ∧
      s2.baseDir = s1.baseDir ∧
      (∃ e : CacheEntry, s2 = Served.merged e) ∧
      (doWithProject delegate removeOk
          (doWithProject delegate removeOk st params action1).2 params action2).2.matLog
        = (doWithProject delegate removeOk st params action1).2.matLog ∧
      (doWithProject delegate removeOk st params action1).2.matLog.length
        ≤ st.matLog.length + 1 := by
  rcases hF : st.cache.entries.find? (fun kv => decide (kv.1 = cacheKeyForSha params.id))
    with _ | ⟨k0, e0⟩
  · -- first call misses an empty slot: populate, second call hits
    have hlv1 := lookupAndValidate_none removeOk st params (cacheKeyForSha params.id) hF
    have hpop := doWithProject_populate delegate removeOk st params action1 p st
      hro hsha hlv1 hok hmax
    have hmem := hpop.2.2.2.2 hfresh
    have hserve := doWithProject_after_populate delegate removeOk
      (doWithProject delegate removeOk st params action1).2 params action2 p
      hro hsha hpop.2.2.2.1 hmem
    refine ⟨Served.fresh p, Served.merged (mergeProjectParams p params),
      hpop.2.2.1, hserve.1, rfl, ⟨_, rfl⟩, hserve.2.1, ?_⟩
    rw [hpop.2.1]
    simp
  · by_cases hval : cachedProjectIsValid st.fs e0 params = true
    · -- first call already hits: no delegate call at all
      have hlv1 := lookupAndValidate_hit removeOk st params (cacheKeyForSha params.id)
        k0 e0 hF hval
      have h1 := doWithProject_hit_serve delegate removeOk st params action1 e0 _
        hro hsha hlv1
      have hF2 : (doWithProject delegate removeOk st params action1).2.cache.entries.find?
          (fun kv => decide (kv.1 = cacheKeyForSha params.id))
          = some (cacheKeyForSha params.id, e0) := by
        rw [h1]
        simp
      have hval2 : cachedProjectIsValid
          (doWithProject delegate removeOk st params action1).2.fs e0 params = true := by
        rw [h1]
        exact hval
      have hlv2 := lookupAndValidate_hit removeOk
        (doWithProject delegate removeOk st params action1).2 params
        (cacheKeyForSha params.id) (cacheKeyForSha params.id) e0 hF2 hval2
      have h2 := doWithProject_hit_serve delegate removeOk
        (doWithProject delegate removeOk st params action1).2 params action2 e0 _
        hro hsha hlv2
      refine ⟨Served.merged e0, Served.merged e0, ?_, ?_, rfl, ⟨e0, rfl⟩, ?_, ?_⟩
      · rw [h1]
      · rw [h2]
      · rw [h2, h1]
      · rw [h1]
        simp
    · -- first call finds a stale entry: evict, populate, second call hits
      have hlv1 := lookupAndValidate_invalid removeOk st params (cacheKeyForSha params.id)
        k0 e0 hF (Bool.not_eq_true _ ▸ hval)
      have hpop := doWithProject_populate delegate removeOk st params action1 p _
        hro hsha hlv1 hok hmax
      have hfresh1 : ∀ kv ∈ (cleanUp removeOk
          { st with cache := { st.cache with
              entries := st.cache.entries.filter
                (fun kv => decide (kv.1 ≠ cacheKeyForSha params.id)) } }
          e0.baseDir .eviction).cache.entries, kv.2.baseDir ≠ p.baseDir := by
        rw [cleanUp_cache]
        intro kv hkv
        exact hfresh kv (List.mem_of_mem_filter hkv)
      have hmem := hpop.2.2.2.2 hfresh1
      have hserve := doWithProject_after_populate delegate removeOk
        (doWithProject delegate removeOk st params action1).2 params action2 p
        hro hsha hpop.2.2.2.1 hmem
      refine ⟨Served.fresh p, Served.merged (mergeProjectParams p params),
        ?_, hserve.1, rfl, ⟨_, rfl⟩, hserve.2.1, ?_⟩
      · rw [hpop.2.2.1, cleanUp_actionLog]
      · rw [hpop.2.1, cleanUp_matLog]
        simp

/-- Witness for C1: two identical read-only requests for commit
`"c" * 40` from a fresh loader; the second is a cache hit. -/
theorem doWithProject_second_request_cache_hit_witness :
    ∃ s1 s2 : Served,
      (doWithProject (fun _ => Except.ok ⟨"co1", ⟨"ow", "re",
            "cccccccccccccccccccccccccccccccccccccccc"⟩⟩) (fun _ => true)
          (mkState 20)
          ⟨⟨"ow", "re", "cccccccccccccccccccccccccccccccccccccccc"⟩, true, [], false⟩
          (fun s => Except.ok s.baseDir)).2.actionLog
        = (mkState 20).actionLog ++ [s1] ∧
      (doWithProject (fun _ => Except.ok ⟨"co1", ⟨"ow", "re",
            "cccccccccccccccccccccccccccccccccccccccc"⟩⟩) (fun _ => true)
          (doWithProject (fun _ => Except.ok ⟨"co1", ⟨"ow", "re",
              "cccccccccccccccccccccccccccccccccccccccc"⟩⟩) (fun _ => true)
            (mkState 20)
            ⟨⟨"ow", "re", "cccccccccccccccccccccccccccccccccccccccc"⟩, true, [], false⟩
            (fun s => Except.ok s.baseDir)).2
          ⟨⟨"ow", "re", "cccccccccccccccccccccccccccccccccccccccc"⟩, true, [], false⟩
          (fun s => Except.ok s.baseDir)).2.actionLog
        = (doWithProject (fun _ => Except.ok ⟨"co1", ⟨"ow", "re",
              "cccccccccccccccccccccccccccccccccccccccc"⟩⟩) (fun _ => true)
            (mkState 20)
            ⟨⟨"ow", "re", "cccccccccccccccccccccccccccccccccccccccc"⟩, true, [], false⟩
            (fun s => Except.ok s.baseDir)).2.actionLog ++ [s2] ∧
      s2.baseDir = s1.baseDir ∧
      (∃ e : CacheEntry, s2 = Served.merged e) ∧
      (doWithProject (fun _ => Except.ok ⟨"co1", ⟨"ow", "re",
            "cccccccccccccccccccccccccccccccccccccccc"⟩⟩) (fun _ => true)
          (doWithProject (fun _ => Except.ok ⟨"co1", ⟨"ow", "re",
              "cccccccccccccccccccccccccccccccccccccccc"⟩⟩) (fun _ => true)
            (mkState 20)
            ⟨⟨"ow", "re", "cccccccccccccccccccccccccccccccccccccccc"⟩, true, [], false⟩
            (fun s => Except.ok s.baseDir)).2
          ⟨⟨"ow", "re", "cccccccccccccccccccccccccccccccccccccccc"⟩, true, [], false⟩
          (fun s => Except.ok s.baseDir)).2.matLog
        = (doWithProject (fun _ => Except.ok ⟨"co1", ⟨"ow", "re",
              "cccccccccccccccccccccccccccccccccccccccc"⟩⟩) (fun _ => true)
            (mkState 20)
            ⟨⟨"ow", "re", "cccccccccccccccccccccccccccccccccccccccc"⟩, true, [], false⟩
            (fun s => Except.ok s.baseDir)).2.matLog ∧
      (doWithProject (fun _ => Except.ok ⟨"co1", ⟨"ow", "re",
            "cccccccccccccccccccccccccccccccccccccccc"⟩⟩) (fun _ => true)
          (mkState 20)
          ⟨⟨"ow", "re", "cccccccccccccccccccccccccccccccccccccccc"⟩, true, [], false⟩
          (fun s => Except.ok s.baseDir)).2.matLog.length
        ≤ (mkState 20).matLog.length + 1 :=
  doWithProject_second_request_cache_hit _ _ (mkState 20) _ _ _
    ⟨"co1", ⟨"ow", "re", "cccccccccccccccccccccccccccccccccccccccc"⟩⟩
    rfl (by decide) rfl (by decide) (by intro kv hkv; cases hkv)

/-- Filtering out an element that is present strictly shrinks a list. -/
theorem length_filter_lt_of_mem {γ : Type} (l : List γ) (p : γ → Bool) (a : γ)
    (ha : a ∈ l) (hpa : p a = false) : (l.filter p).length < l.length := by
  induction l with
  | nil => cases ha
  | cons b t ih =>
    cases List.mem_cons.mp ha with
    | inl h =>
      subst h
      rw [List.filter_cons, hpa]
      simp only [Bool.false_eq_true, if_false, List.length_cons]
      have := List.length_filter_le p t
      omega
    | inr hm =>
      cases hpb : p b <;> rw [List.filter_cons, hpb] <;> simp only [if_true, if_false,
        Bool.false_eq_true, List.length_cons]
      · have := ih hm
        omega
      · exact Nat.succ_lt_succ (ih hm)

/-- Cache Store operations never change the configured capacity. -/
theorem applyOp_maxEntries (c : LruCache) (op : CacheOp) :
    (applyOp c op).maxEntries = c.maxEntries := by
  cases op with
  | get k =>
    rcases hF : c.entries.find? (fun e => decide (e.1 = k)) with _ | e <;>
      simp [applyOp, LruCache.get, hF]
  | put k v =>
    simp only [applyOp, LruCache.put]
    split <;> rfl
  | evict k =>
    rcases hF : c.entries.find? (fun e => decide (e.1 = k)) with _ | e <;>
      simp [applyOp, LruCache.evict, hF]

/-- One Cache Store operation keeps the size within the capacity. -/
theorem applyOp_size_le (c : LruCache) (op : CacheOp) (h : c.size ≤ c.maxEntries) :
    (applyOp c op).size ≤ c.maxEntries := by
  unfold LruCache.size at h
  cases op with
  | get k =>
    rcases hF : c.entries.find? (fun e => decide (e.1 = k)) with _ | e
    · simpa [applyOp, LruCache.get, hF, LruCache.size] using h
    · have hmem := List.mem_of_find?_eq_some hF
      have h1 := List.find?_some hF
      have hpa : (fun x : CacheKey × CacheEntry => decide (x.1 ≠ k)) e = false := by
        simp at h1
        simp [h1]
      have hlt := length_filter_lt_of_mem c.entries
        (fun x => decide (x.1 ≠ k)) e hmem hpa
      simp only [applyOp, LruCache.get, hF, LruCache.size, List.length_cons]
      simp only [ne_eq, decide_not] at hlt ⊢
      omega
  | put k v =>
    have hk := List.length_filter_le (fun e : CacheKey × CacheEntry => decide (e.1 ≠ k))
      c.entries
    simp only [applyOp, LruCache.put]
    split
    · rename_i hlen
      simp [LruCache.size, ne_eq, decide_not] at hk hlen ⊢
      omega
    · rename_i hlen
      simp [LruCache.size, ne_eq, decide_not] at hk hlen ⊢
      omega
  | evict k =>
    rcases hF : c.entries.find? (fun e => decide (e.1 = k)) with _ | e
    · simpa [applyOp, LruCache.evict, hF, LruCache.size] using h
    · have hk := List.length_filter_le (fun e2 : CacheKey × CacheEntry => decide (e2.1 ≠ k))
        c.entries
      simp only [applyOp, LruCache.evict, hF, LruCache.size]
      simp only [ne_eq, decide_not] at hk ⊢
      omega

/-- Any sequence of Cache Store operations keeps the size within the
capacity, and leaves the capacity itself unchanged. -/
theorem foldl_applyOp_size_le (ops : List CacheOp) (c : LruCache)
    (h : c.size ≤ c.maxEntries) :
    (ops.foldl applyOp c).size ≤ c.maxEntries ∧
    (ops.foldl applyOp c).maxEntries = c.maxEntries := by
  induction ops generalizing c with
  | nil => exact ⟨h, rfl⟩
  | cons op ops ih =>
    rw [List.foldl_cons]
    have h1 := applyOp_size_le c op h
    have h2 := applyOp_maxEntries c op
    have h3 := ih (applyOp c op) (by rw [h2]; exact h1)
    exact ⟨by rw [← h2]; exact h3.1, by rw [h3.2, h2]⟩

/-- Insertion that stays within capacity: no victim, entry conses on. -/
theorem LruCache.put_eq_of_fits (c : LruCache) (k : CacheKey) (v : CacheEntry)
    (h : ¬ (c.maxEntries <
      ((k, v) :: c.entries.filter (fun e => decide (e.1 ≠ k))).length)) :
    c.put k v =
      (none, { c with entries :=
                (k, v) :: c.entries.filter (fun e => decide (e.1 ≠ k)) }) := by
  simp only [LruCache.put]
  rw [if_neg h]

/-- Insertion that would exceed capacity: the last (least recently used)
entry is reported as the victim and dropped. -/
theorem LruCache.put_eq_of_overflow (c : LruCache) (k : CacheKey) (v : CacheEntry)
    (h : c.maxEntries <
      ((k, v) :: c.entries.filter (fun e => decide (e.1 ≠ k))).length) :
    c.put k v =
      ((((k, v) :: c.entries.filter (fun e => decide (e.1 ≠ k))).getLast?).map Prod.snd,
        { c with entries :=
                  ((k, v) :: c.entries.filter (fun e => decide (e.1 ≠ k))).dropLast }) := by
  simp only [LruCache.put]
  rw [if_pos h]

/-- Full state after a read-only exact-hash miss whose insertion stays
within capacity. -/
theorem doWithProject_miss_no_evict {α : Type}
    (delegate : ProjectLoadingParameters → Except String GitProject)
    (removeOk : String → Bool) (st : LoaderState)
    (params : ProjectLoadingParameters) (action : Served → Except String α)
    (p : GitProject)
    (hro : params.readOnly = true) (hsha : isExactSha params.id.sha = true)
    (hF : st.cache.entries.find? (fun kv => decide (kv.1 = cacheKeyForSha params.id)) = none)
    (hok : delegate params = Except.ok p)
    (hnoev : ¬ (st.cache.maxEntries <
      ((cacheKeyForSha params.id, mergeProjectParams p params) ::
        st.cache.entries.filter
          (fun kv => decide (kv.1 ≠ cacheKeyForSha params.id))).length)) :
    doWithProject delegate removeOk st params action =
      ((action (.fresh p)).mapError JsError.action,
        { st with
            cache := { st.cache with entries :=
              ((cacheKeyForSha params.id, mergeProjectParams p params) ::
                st.cache.entries.filter
                  (fun kv => decide (kv.1 ≠ cacheKeyForSha params.id))) }
            fs := insertPath p.baseDir st.fs
            matLog := st.matLog ++ [params]
            actionLog := st.actionLog ++ [Served.fresh p] }) := by
  have hlv := lookupAndValidate_none removeOk st params (cacheKeyForSha params.id) hF
  have hput := LruCache.put_eq_of_fits st.cache (cacheKeyForSha params.id)
    (mergeProjectParams p params) hnoev
  simp [doWithProject, hro, hsha, hlv, save, hok, runAction, hput]

/-- Full state after a read-only exact-hash miss whose insertion exceeds
capacity: the LRU victim is evicted and its directory reclaimed. -/
theorem doWithProject_miss_evict {α : Type}
    (delegate : ProjectLoadingParameters → Except String GitProject)
    (removeOk : String → Bool) (st : LoaderState)
    (params : ProjectLoadingParameters) (action : Served → Except String α)
    (p : GitProject) (lastPair : CacheKey × CacheEntry)
    (hro : params.readOnly = true) (hsha : isExactSha params.id.sha = true)
    (hF : st.cache.entries.find? (fun kv => decide (kv.1 = cacheKeyForSha params.id)) = none)
    (hok : delegate params = Except.ok p)
    (hev : st.cache.maxEntries <
      ((cacheKeyForSha params.id, mergeProjectParams p params) ::
        st.cache.entries.filter
          (fun kv => decide (kv.1 ≠ cacheKeyForSha params.id))).length)
    (hlast : ((cacheKeyForSha params.id, mergeProjectParams p params) ::
        st.cache.entries.filter
          (fun kv => decide (kv.1 ≠ cacheKeyForSha params.id))).getLast?
      = some lastPair) :
    doWithProject delegate removeOk st params action =
      ((action (.fresh p)).mapError JsError.action,
        { cleanUp removeOk
            { st with
                cache := { st.cache with entries :=
                  ((cacheKeyForSha params.id, mergeProjectParams p params) ::
                    st.cache.entries.filter
                      (fun kv => decide (kv.1 ≠ cacheKeyForSha params.id))).dropLast }
                fs := insertPath p.baseDir st.fs
                matLog := st.matLog ++ [params] }
            lastPair.2.baseDir Reason.eviction with
          actionLog :=
            (cleanUp removeOk
              { st with
                  cache := { st.cache with entries :=
                    ((cacheKeyForSha params.id, mergeProjectParams p params) ::
                      st.cache.entries.filter
                        (fun kv => decide (kv.1 ≠ cacheKeyForSha params.id))).dropLast }
                  fs := insertPath p.baseDir st.fs
                  matLog := st.matLog ++ [params] }
              lastPair.2.baseDir Reason.eviction).actionLog ++ [Served.fresh p] }) := by
  have hlv := lookupAndValidate_none removeOk st params (cacheKeyForSha params.id) hF
  have hput := LruCache.put_eq_of_overflow st.cache (cacheKeyForSha params.id)
    (mergeProjectParams p params) hev
  have hlast2 := hlast
  simp only [ne_eq, decide_not] at hlast2
  simp [doWithProject, hro, hsha, hlv, save, hok, runAction, hput, hlast2]

/-- An exact commit hash is a nonempty string. -/
theorem isExactSha_ne_empty (s : String) (h : isExactSha s = true) : s ≠ "" := by
  intro he
  rw [he] at h
  exact absurd h (by decide)

/-- Explicit state of the capacity scenario after its first `n` requests,
while the store still fits (`n` at most the capacity). -/
theorem runSeq_inv (N : Nat) (shaF : Nat → String)
    (hsha : ∀ i, i < N + 1 → isExactSha (shaF i) = true)
    (hinj : ∀ i, i < N + 1 → ∀ j, j < N + 1 → shaF i = shaF j → i = j) :
    ∀ n, n ≤ N →
      runSeq N shaF n = { mkState N with
        cache := ⟨N, ((List.range n).map
          (fun j => (scenarioKey shaF j, scenarioEntry shaF j))).reverse⟩
        fs := ((List.range n).map shaF).reverse
        matLog := (List.range n).map (scenarioParams shaF)
        actionLog := (List.range n).map
          (fun j => Served.fresh ⟨shaF j, ⟨"o", "r", shaF j⟩⟩) } := by
  intro n
  induction n with
  | zero =>
    intro _
    rfl
  | succ n ih =>
    intro hn1
    have hn : n ≤ N := Nat.le_of_succ_le hn1
    have hrs := ih hn
    have hshne : ∀ j, j < n → shaF j ≠ shaF n := by
      intro j hj heq
      have := hinj j (by omega) n (by omega) heq
      omega
    have hF : (((List.range n).map
          (fun j => (scenarioKey shaF j, scenarioEntry shaF j))).reverse).find?
          (fun kv => decide (kv.1 = cacheKeyForSha (scenarioParams shaF n).id)) = none := by
      rw [List.find?_eq_none]
      intro x hx
      rw [List.mem_reverse, List.mem_map] at hx
      obtain ⟨j, hj, rfl⟩ := hx
      rw [List.mem_range] at hj
      simp only [decide_eq_true_eq, scenarioKey, scenarioParams, cacheKeyForSha,
        CacheKey.mk.injEq, not_and]
      intro _ _
      exact hshne j hj
    have hfilt : (((List.range n).map
          (fun j => (scenarioKey shaF j, scenarioEntry shaF j))).reverse).filter
          (fun kv => decide (kv.1 ≠ cacheKeyForSha (scenarioParams shaF n).id))
        = ((List.range n).map
          (fun j => (scenarioKey shaF j, scenarioEntry shaF j))).reverse := by
      rw [List.filter_eq_self]
      intro x hx
      rw [List.mem_reverse, List.mem_map] at hx
      obtain ⟨j, hj, rfl⟩ := hx
      rw [List.mem_range] at hj
      simp only [decide_eq_true_eq, scenarioKey, scenarioParams, cacheKeyForSha,
        ne_eq, CacheKey.mk.injEq, not_and, decide_not, Bool.not_eq_true',
        decide_eq_false_iff_not]
      intro _ _
      exact hshne j hj
    have hfs : shaF n ∉ ((List.range n).map shaF).reverse := by
      rw [List.mem_reverse, List.mem_map]
      rintro ⟨j, hj, hje⟩
      rw [List.mem_range] at hj
      exact hshne j hj hje
    have hnoev : ¬ ((({ mkState N with
          cache := ⟨N, ((List.range n).map
            (fun j => (scenarioKey shaF j, scenarioEntry shaF j))).reverse⟩
          fs := ((List.range n).map shaF).reverse
          matLog := (List.range n).map (scenarioParams shaF)
          actionLog := (List.range n).map
            (fun j => Served.fresh ⟨shaF j, ⟨"o", "r", shaF j⟩⟩) } : LoaderState)).cache.maxEntries <
        ((cacheKeyForSha (scenarioParams shaF n).id,
            mergeProjectParams ⟨shaF n, ⟨"o", "r", shaF n⟩⟩ (scenarioParams shaF n)) ::
          (({ mkState N with
            cache := ⟨N, ((List.range n).map
              (fun j => (scenarioKey shaF j, scenarioEntry shaF j))).reverse⟩
            fs := ((List.range n).map shaF).reverse
            matLog := (List.range n).map (scenarioParams shaF)
            actionLog := (List.range n).map
              (fun j => Served.fresh ⟨shaF j, ⟨"o", "r", shaF j⟩⟩) } : LoaderState)).cache.entries.filter
            (fun kv => decide (kv.1 ≠ cacheKeyForSha (scenarioParams shaF n).id))).length) := by
      simp only [hfilt]
      simp [List.length_reverse, List.length_map, List.length_range]
      omega
    have hstep := doWithProject_miss_no_evict scenarioDelegate (fun _ => true)
      ({ mkState N with
        cache := ⟨N, ((List.range n).map
          (fun j => (scenarioKey shaF j, scenarioEntry shaF j))).reverse⟩
        fs := ((List.range n).map shaF).reverse
        matLog := (List.range n).map (scenarioParams shaF)
        actionLog := (List.range n).map
          (fun j => Served.fresh ⟨shaF j, ⟨"o", "r", shaF j⟩⟩) } : LoaderState)
      (scenarioParams shaF n) (fun s => Except.ok s)
      ⟨shaF n, ⟨"o", "r", shaF n⟩⟩ rfl (hsha n (by omega)) hF rfl hnoev
    have hrun : runSeq N shaF (n + 1)
        = (doWithProject scenarioDelegate (fun _ => true) (runSeq N shaF n)
          (scenarioParams shaF n) (fun s => Except.ok s)).2 := rfl
    rw [hrun, hrs, hstep]
    simp only [hfilt]
    simp [List.range_succ, insertPath, hfs, scenarioKey, scenarioEntry, scenarioParams,
      cacheKeyForSha, mergeProjectParams, scenarioDelegate]

/-- A succeeding reclamation leaves its own directory absent from storage. -/
theorem cleanUp_self_not_mem (removeOk : String → Bool) (st : LoaderState)
    (dir : String) (r : Reason) (hne : dir ≠ "") (hok : removeOk dir = true) :
    dir ∉ (cleanUp removeOk st dir r).fs := by
  by_cases h : dir ∈ st.fs
  · rw [cleanUp_present removeOk st dir r hne h hok]
    simp [List.mem_filter]
  · rw [cleanUp_absent removeOk st dir r h]
    exact h

/-- C7: the Cache Store is bounded. The constructor's capacity default is
20; any sequence of store operations keeps the size within the configured
capacity; and in the end-to-end scenario of `N + 1` distinct valid cacheable
requests against capacity `N` with no reuse, the last insertion evicts the
first request's entry — the least recently used — whose key is gone from
the store, while the injected eviction callback removes that entry's backing
directory from storage (one removal performed). -/
theorem lruCache_capacity_bound :
    defaultMaxEntries = 20 ∧
    (∀ (c : LruCache) (ops : List CacheOp), c.size ≤ c.maxEntries →
      (ops.foldl applyOp c).size ≤ c.maxEntries) ∧
    (∀ (N : Nat) (shaF : Nat → String), 1 ≤ N →
      (∀ i, i < N + 1 → isExactSha (shaF i) = true) →
      (∀ i, i < N + 1 → ∀ j, j < N + 1 → shaF i = shaF j → i = j) →
      (runSeq N shaF (N + 1)).cache.size = N ∧
      (∀ kv ∈ (runSeq N shaF (N + 1)).cache.entries, kv.1 ≠ scenarioKey shaF 0) ∧
      shaF 0 ∉ (runSeq N shaF (N + 1)).fs ∧
      (runSeq N shaF (N + 1)).removeLog = [shaF 0]) := by
  refine ⟨rfl, fun c ops h => (foldl_applyOp_size_le ops c h).1, ?_⟩
  intro N shaF hN hsha hinj
  obtain ⟨M, rfl⟩ : ∃ M, N = M + 1 := ⟨N - 1, by omega⟩
  have hrs := runSeq_inv (M + 1) shaF hsha hinj (M + 1) le_rfl
  have hshne : ∀ j, j < M + 1 → shaF j ≠ shaF (M + 1) := by
    intro j hj heq
    have := hinj j (by omega) (M + 1) (by omega) heq
    omega
  have hsplit : ((List.range (M + 1)).map
        (fun j => (scenarioKey shaF j, scenarioEntry shaF j))).reverse
      = ((List.range M).map
          (fun j => (scenarioKey shaF (j + 1), scenarioEntry shaF (j + 1)))).reverse
        ++ [(scenarioKey shaF 0, scenarioEntry shaF 0)] := by
    rw [List.range_succ_eq_map, List.map_cons, List.reverse_cons, List.map_map]
    rfl
  have hF : ((((List.range (M + 1)).map
        (fun j => (scenarioKey shaF j, scenarioEntry shaF j))).reverse)).find?
        (fun kv => decide (kv.1 = cacheKeyForSha (scenarioParams shaF (M + 1)).id))
      = none := by
    rw [List.find?_eq_none]
    intro x hx
    rw [List.mem_reverse, List.mem_map] at hx
    obtain ⟨j, hj, rfl⟩ := hx
    rw [List.mem_range] at hj
    simp only [decide_eq_true_eq, scenarioKey, scenarioParams, cacheKeyForSha,
      CacheKey.mk.injEq, not_and]
    intro _ _
    exact hshne j hj
  have hfilt : ((((List.range (M + 1)).map
        (fun j => (scenarioKey shaF j, scenarioEntry shaF j))).reverse)).filter
        (fun kv => decide (kv.1 ≠ cacheKeyForSha (scenarioParams shaF (M + 1)).id))
      = (((List.range (M + 1)).map
        (fun j => (scenarioKey shaF j, scenarioEntry shaF j))).reverse) := by
    rw [List.filter_eq_self]
    intro x hx
    rw [List.mem_reverse, List.mem_map] at hx
    obtain ⟨j, hj, rfl⟩ := hx
    rw [List.mem_range] at hj
    simp only [decide_eq_true_eq, scenarioKey, scenarioParams, cacheKeyForSha,
      ne_eq, CacheKey.mk.injEq, not_and, decide_not, Bool.not_eq_true',
      decide_eq_false_iff_not]
    intro _ _
    exact hshne j hj
  have hev : (({ mkState (M + 1) with
        cache := ⟨M + 1, ((List.range (M + 1)).map
          (fun j => (scenarioKey shaF j, scenarioEntry shaF j))).reverse⟩
        fs := ((List.range (M + 1)).map shaF).reverse
        matLog := (List.range (M + 1)).map (scenarioParams shaF)
        actionLog := (List.range (M + 1)).map
          (fun j => Served.fresh ⟨shaF j, ⟨"o", "r", shaF j⟩⟩) } : LoaderState)).cache.maxEntries <
      ((cacheKeyForSha (scenarioParams shaF (M + 1)).id,
          mergeProjectParams ⟨shaF (M + 1), ⟨"o", "r", shaF (M + 1)⟩⟩
            (scenarioParams shaF (M + 1))) ::
        (({ mkState (M + 1) with
          cache := ⟨M + 1, ((List.range (M + 1)).map
            (fun j => (scenarioKey shaF j, scenarioEntry shaF j))).reverse⟩
          fs := ((List.range (M + 1)).map shaF).reverse
          matLog := (List.range (M + 1)).map (scenarioParams shaF)
          actionLog := (List.range (M + 1)).map
            (fun j => Served.fresh ⟨shaF j, ⟨"o", "r", shaF j⟩⟩) } : LoaderState)).cache.entries.filter
          (fun kv => decide (kv.1 ≠ cacheKeyForSha (scenarioParams shaF (M + 1)).id))).length := by
    simp only [hfilt]
    simp [List.length_reverse, List.length_map, List.length_range]
  have hlast : ((cacheKeyForSha (scenarioParams shaF (M + 1)).id,
        mergeProjectParams ⟨shaF (M + 1), ⟨"o", "r", shaF (M + 1)⟩⟩
          (scenarioParams shaF (M + 1))) ::
      (({ mkState (M + 1) with
        cache := ⟨M + 1, ((List.range (M + 1)).map
          (fun j => (scenarioKey shaF j, scenarioEntry shaF j))).reverse⟩
        fs := ((List.range (M + 1)).map shaF).reverse
        matLog := (List.range (M + 1)).map (scenarioParams shaF)
        actionLog := (List.range (M + 1)).map
          (fun j => Served.fresh ⟨shaF j, ⟨"o", "r", shaF j⟩⟩) } : LoaderState)).cache.entries.filter
        (fun kv => decide (kv.1 ≠ cacheKeyForSha (scenarioParams shaF (M + 1)).id))).getLast?
      = some (scenarioKey shaF 0, scenarioEntry shaF 0) := by
    simp only [hfilt]
    show ((cacheKeyForSha (scenarioParams shaF (M + 1)).id,
        mergeProjectParams ⟨shaF (M + 1), ⟨"o", "r", shaF (M + 1)⟩⟩
          (scenarioParams shaF (M + 1))) ::
      ((List.range (M + 1)).map
        (fun j => (scenarioKey shaF j, scenarioEntry shaF j))).reverse).getLast?
      = some (scenarioKey shaF 0, scenarioEntry shaF 0)
    rw [hsplit, ← List.cons_append, List.getLast?_concat]
  have hstep := doWithProject_miss_evict scenarioDelegate (fun _ => true)
    ({ mkState (M + 1) with
      cache := ⟨M + 1, ((List.range (M + 1)).map
        (fun j => (scenarioKey shaF j, scenarioEntry shaF j))).reverse⟩
      fs := ((List.range (M + 1)).map shaF).reverse
      matLog := (List.range (M + 1)).map (scenarioParams shaF)
      actionLog := (List.range (M + 1)).map
        (fun j => Served.fresh ⟨shaF j, ⟨"o", "r", shaF j⟩⟩) } : LoaderState)
    (scenarioParams shaF (M + 1)) (fun s => Except.ok s)
    ⟨shaF (M + 1), ⟨"o", "r", shaF (M + 1)⟩⟩
    (scenarioKey shaF 0, scenarioEntry shaF 0)
    rfl (hsha (M + 1) (by omega)) hF rfl hev hlast
  have hrun : runSeq (M + 1) shaF (M + 1 + 1)
      = (doWithProject scenarioDelegate (fun _ => true) (runSeq (M + 1) shaF (M + 1))
        (scenarioParams shaF (M + 1)) (fun s => Except.ok s)).2 := rfl
  have hne0 : shaF 0 ≠ "" := isExactSha_ne_empty (shaF 0) (hsha 0 (by omega))
  rw [hrun, hrs, hstep]
  simp only [hfilt]
  constructor
  · -- size after the eviction is back to the capacity
    show ((cleanUp (fun _ => true) _ _ _ : LoaderState)).cache.size = M + 1
    rw [cleanUp_cache]
    show (((cacheKeyForSha (scenarioParams shaF (M + 1)).id,
        mergeProjectParams ⟨shaF (M + 1), ⟨"o", "r", shaF (M + 1)⟩⟩
          (scenarioParams shaF (M + 1))) ::
      ((List.range (M + 1)).map
        (fun j => (scenarioKey shaF j, scenarioEntry shaF j))).reverse).dropLast).length
      = M + 1
    rw [hsplit, ← List.cons_append, List.dropLast_concat]
    simp [List.length_reverse, List.length_map, List.length_range]
  constructor
  · -- the first request's key is gone from the store
    intro kv hkv
    rw [show ((cleanUp (fun _ => true) _ _ _ : LoaderState)).cache
        = _ from cleanUp_cache _ _ _ _] at hkv
    revert hkv
    show kv ∈ (((cacheKeyForSha (scenarioParams shaF (M + 1)).id,
        mergeProjectParams ⟨shaF (M + 1), ⟨"o", "r", shaF (M + 1)⟩⟩
          (scenarioParams shaF (M + 1))) ::
      ((List.range (M + 1)).map
        (fun j => (scenarioKey shaF j, scenarioEntry shaF j))).reverse).dropLast)
      → kv.1 ≠ scenarioKey shaF 0
    rw [hsplit, ← List.cons_append, List.dropLast_concat]
    intro hkv
    cases List.mem_cons.mp hkv with
    | inl h =>
      subst h
      simp only [scenarioKey, scenarioParams, cacheKeyForSha, ne_eq, CacheKey.mk.injEq,
        not_and]
      intro _ _ heq
      have := hinj (M + 1) (by omega) 0 (by omega) heq
      omega
    | inr h =>
      rw [List.mem_reverse, List.mem_map] at h
      obtain ⟨j, hj, rfl⟩ := h
      rw [List.mem_range] at hj
      simp only [scenarioKey, ne_eq, CacheKey.mk.injEq, not_and]
      intro _ _ heq
      have := hinj (j + 1) (by omega) 0 (by omega) heq
      omega
  constructor
  · -- the first directory is gone from storage
    exact cleanUp_self_not_mem (fun _ => true) _
      ((scenarioKey shaF 0, scenarioEntry shaF 0).2.baseDir) Reason.eviction hne0 rfl
  · -- exactly one removal was performed, of the first directory
    have hmem0 : ((scenarioKey shaF 0, scenarioEntry shaF 0).2.baseDir)
        ∈ insertPath (shaF (M + 1)) (((List.range (M + 1)).map shaF).reverse) := by
      apply insertPath_mem_of_mem
      rw [List.mem_reverse, List.mem_map]
      exact ⟨0, by rw [List.mem_range]; omega, rfl⟩
    rw [cleanUp_present (fun _ => true) _
      ((scenarioKey shaF 0, scenarioEntry shaF 0).2.baseDir) Reason.eviction
      hne0 hmem0 rfl]
    simp [mkState, scenarioEntry]

/-- Witness for C7: capacity 1, two distinct valid hashes requested in
order; the first request's directory is removed by the eviction callback. -/
theorem lruCache_capacity_bound_witness :
    (runSeq 1 (fun i => if i = 0 then "aaaaaaaaaaaaaaaaaaaaaaaaaaaaaaaaaaaaaaaa"
        else "bbbbbbbbbbbbbbbbbbbbbbbbbbbbbbbbbbbbbbbb") 2).removeLog
      = ["aaaaaaaaaaaaaaaaaaaaaaaaaaaaaaaaaaaaaaaa"] :=
  (lruCache_capacity_bound.2.2 1
    (fun i => if i = 0 then "aaaaaaaaaaaaaaaaaaaaaaaaaaaaaaaaaaaaaaaa"
      else "bbbbbbbbbbbbbbbbbbbbbbbbbbbbbbbbbbbbbbbb")
    (by decide) (by decide) (by decide)).2.2.2

end SdmCache
